import Mathlib

/-!
Verification of the smart-order-router repository.

Shallow embedding of the core pure logic of the repository:

* `sor_app.py` — marketable-limit placement (`place_marketable_limit`),
  price rounding (`price_to_precision`), and the slippage report in the
  execution block.
* `api_server.py` — the depth-within-budget walk in `get_order_book_depth`.
* `smart_order_router.py` — `place_order` (venue pinning, per-venue
  fallthrough, fill reconciliation), `get_best_prices` and
  `get_arbitrage_opportunities`.

Python floats and Decimals are modelled as rationals; a Python value that
may be `None` is modelled as an `Option`; a Python function that may raise
is modelled with `Except`.  Venue network calls are modelled by passing the
call outcomes in as data: a venue whose call raises is an `Except.error`
or, for ticker fetches, a `none` entry.
-/

/-! ## sor_app.py -/

/-- Constant `THROUGH_BPS = 3.0` from `sor_app.py` line 6: the default
cross offset, in basis points, for a marketable-limit order. -/
def THROUGH_BPS : ℚ := 3

/-- Constant `ORDER_WAIT_SECONDS = 0.35` from `sor_app.py` line 7. -/
def ORDER_WAIT_SECONDS : ℚ := 35 / 100

/-- Constant `USE_FOK_FIRST = True` from `sor_app.py` line 8.  Its source
comment announces a `FOK -> IOC -> plain limit` fallback chain. -/
def USE_FOK_FIRST : Bool := true

/-- Round half to even at `decimals` decimal places, the behaviour of the
Python builtin `round` used by `price_to_precision` in `sor_app.py`
(modelled exactly on rationals rather than on binary floats). -/
def roundHalfEven (x : ℚ) : ℤ :=
  let f := ⌊x⌋
  let frac := x - f
  if frac < 1 / 2 then f
  else if 1 / 2 < frac then f + 1
  else if Even f then f else f + 1

/-- Function `price_to_precision(price, decimals=8)` from `sor_app.py`:
rounds the price to eight decimal places. -/
def price_to_precision (price : ℚ) : ℚ :=
  (roundHalfEven (price * 10 ^ 8) : ℚ) / 10 ^ 8

/-- The JSON body `order_data` that `place_marketable_limit` in
`sor_app.py` posts to the `/orders` endpoint.  It carries exactly the five
keys built at lines 134-140 of the source; in particular it carries no
time-in-force field of any kind. -/
structure OrderRequest where
  symbol : String
  side : String
  order_type : String
  quantity : ℚ
  price : ℚ
deriving DecidableEq, Repr

/-- Function `place_marketable_limit(venue, symbol, side, qty, guard_px,
cross_bps=THROUGH_BPS, fok_first=True)` from `sor_app.py` lines 125-149,
up to the point where the order request is posted.  It raises
(`Except.error`) when the guard price is not positive, and otherwise
builds exactly one limit-order request at the crossed, rounded price.
The `fok_first` parameter is accepted, as in the source, and is never
read. -/
def place_marketable_limit (venue symbol side : String) (qty guard_px cross_bps : ℚ)
    (fok_first : Bool) : Except String OrderRequest :=
  if guard_px ≤ 0 then Except.error "No guard TOB"
  else
    let px := guard_px * (if side = "buy" then 1 + cross_bps / 10000 else 1 - cross_bps / 10000)
    let px := price_to_precision px
    Except.ok { symbol := symbol, side := side, order_type := "limit", quantity := qty, price := px }

/-- The slippage computation from the execution block of `sor_app.py`
(line 319): `((avg-guard)/guard*10000) if (avg>0 and guard>0 and
side=="buy") else ((guard-avg)/guard*10000 if (avg>0 and guard>0) else
0.0)`. -/
def slippage_bps (side : String) (avg guard : ℚ) : ℚ :=
  if 0 < avg ∧ 0 < guard ∧ side = "buy" then (avg - guard) / guard * 10000
  else if 0 < avg ∧ 0 < guard then (guard - avg) / guard * 10000
  else 0

/-! ## api_server.py — depth within budget -/

/-- The level-scanning loop of `get_order_book_depth` in `api_server.py`
(lines 720-730): walk the book levels in order, accumulating quantity
`tq` and notional `tv` while the level price has not crossed `max_price`
(`price <= max_price` on the buy side walking asks, `price >= max_price`
on the sell side walking bids), and stop, with a `break`, at the first
level that crosses. -/
def scanOrders (side_buy : Bool) (max_price : ℚ) :
    List (ℚ × ℚ) → ℚ → ℚ → ℚ × ℚ
  | [], tq, tv => (tq, tv)
  | (price, quantity) :: rest, tq, tv =>
    if (if side_buy then price ≤ max_price else max_price ≤ price) then
      scanOrders side_buy max_price rest (tq + quantity) (tv + price * quantity)
    else (tq, tv)

/-- One side of the depth computation of `get_order_book_depth` in
`api_server.py` (lines 699-742): `base_price` is the first level price
(`continue`, modelled as `none`, when it is `0` or the book side is
empty), `max_price = base_price +- base_price*(bps/10000)`, then the scan
loop; an entry `(total_quantity, vwap, max_price)` is produced only when
the accumulated quantity is positive. -/
def calc_depth_side (side_buy : Bool) (bps : ℚ) (orders : List (ℚ × ℚ)) :
    Option (ℚ × ℚ × ℚ) :=
  match orders with
  | [] => none
  | (base_price, _) :: _ =>
    if base_price = 0 then none
    else
      let price_range := base_price * (bps / 10000)
      let max_price := if side_buy then base_price + price_range else base_price - price_range
      let s := scanOrders side_buy max_price orders 0 0
      if 0 < s.1 then some (s.1, s.2 / s.1, max_price) else none

/-! ## smart_order_router.py — place_order -/

/-- Order type, from `models.py`. -/
inductive OrderType where
  | market : OrderType
  | limit : OrderType
deriving DecidableEq, Repr

/-- One entry of the `executions` list built by `place_order` in
`smart_order_router.py` (lines 436-442). -/
structure ExecutionEntry where
  venue : String
  venue_order_id : String
  quantity : ℚ
  price : ℚ
  status : String
deriving DecidableEq, Repr

/-- Class `ExecutionResult` from `models.py`, restricted to the fields
`place_order` sets. -/
structure ExecutionResult where
  success : Bool
  order_id : String
  total_filled : ℚ
  average_price : Option ℚ
  total_cost : ℚ
  executions : List ExecutionEntry
  error_message : Option String
deriving DecidableEq, Repr

/-- The venue order response as it stands at line 378 of
`smart_order_router.py`, after any Gate.io-specific refetch (lines
253-313 and 338-376, which only replace the order dict before this
point).  `filled` models the value of
`order.get('filled') or order.get('filledSize') or order.get('filled_amount')`
(the Python `or` chain, so a falsy `0` also yields `none` here only when
every key is absent; the combined value is taken as input).  `status`
models `order.get('status')`, absent key as `none`. -/
structure OrderResp where
  id : Option String
  status : Option String
  filled : Option ℚ
  average : Option ℚ
  cost : Option ℚ
deriving DecidableEq, Repr

/-- ASCII lower-casing of one character, as Python `str.lower` acts on
the ASCII venue names and order statuses this code handles. -/
def asciiLower (c : Char) : Char :=
  if 'A' ≤ c ∧ c ≤ 'Z' then Char.ofNat (c.toNat + 32) else c

/-- Python `str.lower`, for the ASCII strings this code handles. -/
def pyLower (s : String) : String := String.mk (s.data.map asciiLower)

/-- The venue-pinning step of `place_order` (`smart_order_router.py`
lines 119-130): when a venue is pinned and its lower-cased name is a key
of the exchange dict, only that entry is tried; when the pinned name is
unknown, or no venue is pinned, every exchange is tried. -/
def exchangesToTry (venue : Option String)
    (exchanges : List (String × Except String OrderResp)) :
    List (String × Except String OrderResp) :=
  match venue with
  | none => exchanges
  | some v =>
    match exchanges.find? (fun p => p.1 == pyLower v) with
    | some e => [e]
    | none => exchanges

/-- The fill-reconciliation and result construction of `place_order`
(`smart_order_router.py` lines 378-442) for a venue whose order placement
returned `resp`: when `filled` is absent, a limit order counts as
unfilled, and a market order counts as fully filled exactly when its
lower-cased status is `closed`, `filled` or `done`; `average_price` is
reported only when positive; `cost` defaults to `filled * avg`. -/
def successResult (exchange_name : String) (order_type : OrderType)
    (quantity : ℚ) (price : Option ℚ) (resp : OrderResp) : ExecutionResult :=
  let order_status := pyLower (resp.status.getD "")
  let filled : ℚ :=
    match resp.filled with
    | none =>
      match order_type with
      | OrderType.limit => 0
      | OrderType.market =>
        if order_status = "closed" ∨ order_status = "filled" ∨ order_status = "done"
        then quantity else 0
    | some f => f
  let avg_price : ℚ :=
    match resp.average with
    | none => price.getD 0
    | some a => a
  let cost : ℚ :=
    match resp.cost with
    | none => if 0 < avg_price then filled * avg_price else 0
    | some c => c
  let final_avg_price : Option ℚ := if 0 < avg_price then some avg_price else none
  let exec_price : ℚ :=
    match price with
    | some p => p
    | none => if 0 < avg_price then avg_price else 0
  { success := true
    order_id := resp.id.getD "unknown"
    total_filled := filled
    average_price := final_avg_price
    total_cost := cost
    executions := [{ venue := exchange_name, venue_order_id := resp.id.getD "unknown",
                     quantity := quantity, price := exec_price,
                     status := resp.status.getD "filled" }]
    error_message := none }

/-- The `ExecutionResult` returned by `place_order` when every exchange
in the loop has been exhausted (`smart_order_router.py` lines 458-467). -/
def allFailedResult : ExecutionResult :=
  { success := false
    order_id := "failed"
    total_filled := 0
    average_price := none
    total_cost := 0
    executions := []
    error_message := some "All exchanges failed to place order" }

/-- The per-venue loop of `place_order` (`smart_order_router.py` lines
133-456): skip `kucoin`; on a raising venue record the attempt and
`continue`; on the first venue whose placement returns an order, build
and return the success result.  The function also returns the list of
venues against which a placement call was made, in order. -/
def placeOrderLoop (order_type : OrderType) (quantity : ℚ) (price : Option ℚ) :
    List (String × Except String OrderResp) → List String × ExecutionResult
  | [] => ([], allFailedResult)
  | (name, outcome) :: rest =>
    if name = "kucoin" then placeOrderLoop order_type quantity price rest
    else
      match outcome with
      | Except.error _ =>
        let r := placeOrderLoop order_type quantity price rest
        (name :: r.1, r.2)
      | Except.ok resp => ([name], successResult name order_type quantity price resp)

/-- Method `place_order` of `smart_order_router.py` (lines 103-478),
with each venue's placement call outcome supplied as data: pin
resolution, then the per-venue loop.  Returns the attempted venues
together with the `ExecutionResult`. -/
def place_order (order_type : OrderType) (quantity : ℚ) (price : Option ℚ)
    (venue : Option String) (exchanges : List (String × Except String OrderResp)) :
    List String × ExecutionResult :=
  placeOrderLoop order_type quantity price (exchangesToTry venue exchanges)

/-! ## smart_order_router.py — best prices and arbitrage -/

/-- The values read off one fetched ticker in `get_best_prices`
(`smart_order_router.py` lines 597-598): `bid = ticker.get('bid', 0)`
(absent key already defaulted to `0`) and `ask = ticker.get('ask',
float('inf'))`, an absent key modelled as `none` standing for the
infinite default. -/
structure Ticker where
  bid : ℚ
  ask : Option ℚ
deriving DecidableEq, Repr

/-- The dictionary returned by `get_best_prices`
(`smart_order_router.py` lines 619-627). -/
structure BestPricesOut where
  best_bid : ℚ
  best_ask : ℚ
  spread : ℚ
  spread_bps : ℚ
  best_bid_venue : Option String
  best_ask_venue : Option String
deriving DecidableEq, Repr

/-- Comparison `a < b` where `none` stands for `float('inf')`, as used by
the `ask < best_ask` update in `get_best_prices`. -/
def askLt (a b : Option ℚ) : Bool :=
  match a, b with
  | none, _ => false
  | some _, none => true
  | some x, some y => x < y

/-- The running state of the venue loop of `get_best_prices`
(`smart_order_router.py` lines 558-561), started at
`best_bid = 0`, `best_ask = float('inf')` (`none`), no venues. -/
structure BestAcc where
  best_bid : ℚ
  best_ask : Option ℚ
  best_bid_venue : Option String
  best_ask_venue : Option String
deriving DecidableEq, Repr

/-- One iteration of the venue loop of `get_best_prices`
(`smart_order_router.py` lines 564-611): a venue whose ticker fetch
raises is skipped; otherwise `if bid > best_bid` records the bid and the
venue, and independently `if ask < best_ask` records the ask and the
venue. -/
def bestStep (acc : BestAcc) (v : String × Option Ticker) : BestAcc :=
  match v.2 with
  | none => acc
  | some t =>
    let acc1 := if acc.best_bid < t.bid then
      { acc with best_bid := t.bid, best_bid_venue := some v.1 } else acc
    if askLt t.ask acc1.best_ask then
      { acc1 with best_ask := t.ask, best_ask_venue := some v.1 } else acc1

/-- Method `get_best_prices` of `smart_order_router.py` (lines 555-631),
with each venue's `fetch_ticker` outcome supplied as data (`none` for a
raising venue): run the loop, return `None` when `best_bid == 0` or
`best_ask` is still infinite, and otherwise the result dictionary with
`spread = best_ask - best_bid` and
`spread_bps = spread / best_bid * 10000` when `best_bid > 0`. -/
def get_best_prices (venues : List (String × Option Ticker)) : Option BestPricesOut :=
  let acc := venues.foldl bestStep { best_bid := 0, best_ask := none,
                                     best_bid_venue := none, best_ask_venue := none }
  if acc.best_bid = 0 then none
  else
    match acc.best_ask with
    | none => none
    | some a =>
      let spread := a - acc.best_bid
      let spread_bps := if 0 < acc.best_bid then spread / acc.best_bid * 10000 else 0
      some { best_bid := acc.best_bid, best_ask := a, spread := spread,
             spread_bps := spread_bps, best_bid_venue := acc.best_bid_venue,
             best_ask_venue := acc.best_ask_venue }

/-- The venues of `venues` whose ticker fetch succeeded, paired with
their tickers, in iteration order. -/
def successTickers (venues : List (String × Option Ticker)) : List (String × Ticker) :=
  venues.filterMap (fun v => v.2.map (fun t => (v.1, t)))

/-- One opportunity dictionary appended by `get_arbitrage_opportunities`
(`smart_order_router.py` lines 665-674). -/
structure ArbOpportunity where
  buy_venue : String
  sell_venue : String
  buy_price : ℚ
  sell_price : ℚ
  spread : ℚ
  spread_bps : ℚ
  potential_profit : ℚ
deriving DecidableEq, Repr

/-- The cross-join of `get_arbitrage_opportunities`
(`smart_order_router.py` lines 655-676), over the per-venue `prices`
dict entries `(venue, bid, ask)` gathered from the fetch loop: for every
ordered pair of distinct venues, with `buy_price` the buy venue ask and
`sell_price` the sell venue bid, emit an opportunity when
`sell_price > buy_price` and
`spread_bps = spread / buy_price * 10000` (zero when `buy_price <= 0`)
is at least `min_spread * 10000`. -/
def get_arbitrage_opportunities (prices : List (String × ℚ × ℚ)) (min_spread : ℚ) :
    List ArbOpportunity :=
  prices.flatMap (fun buy =>
    prices.filterMap (fun sell =>
      if buy.1 = sell.1 then none
      else
        let buy_price := buy.2.2
        let sell_price := sell.2.1
        if sell_price > buy_price then
          let spread := sell_price - buy_price
          let spread_bps := if 0 < buy_price then spread / buy_price * 10000 else 0
          if min_spread * 10000 ≤ spread_bps then
            some { buy_venue := buy.1, sell_venue := sell.1, buy_price := buy_price,
                   sell_price := sell_price, spread := spread, spread_bps := spread_bps,
                   potential_profit := spread }
          else none
        else none))

/-! ## Spec-side definitions for comparison

The following definitions follow the wording of the specification and of
the claims, to be compared with the embedded source functions above. -/

/-- Spec wording for the depth walk: a level has not crossed the cap when
its price is at most the cap on the buy side (walking asks), at least the
cap on the sell side (walking bids); a level priced exactly at the cap
has not crossed. -/
def notCrossed (side_buy : Bool) (cap : ℚ) (lvl : ℚ × ℚ) : Bool :=
  if side_buy then decide (lvl.1 ≤ cap) else decide (cap ≤ lvl.1)

/-- Spec wording: the levels consumed by the walk are the longest prefix
of the book side in which no level has crossed the cap; the first
crossing level, and everything after it, is excluded entirely. -/
def includedLevels (side_buy : Bool) (cap : ℚ) (orders : List (ℚ × ℚ)) : List (ℚ × ℚ) :=
  orders.takeWhile (notCrossed side_buy cap)

/-- Total quantity of a list of book levels. -/
def levelsQty (l : List (ℚ × ℚ)) : ℚ := (l.map Prod.snd).sum

/-- Total notional (price times quantity) of a list of book levels. -/
def levelsNotional (l : List (ℚ × ℚ)) : ℚ := (l.map (fun lvl => lvl.1 * lvl.2)).sum

/-- Generic strict-improvement selection step, the common shape of the
`if bid > best_bid` and `if ask < best_ask` loop bodies of
`get_best_prices`: a venue whose fetch failed (`none`) is skipped, and a
fetched value replaces the running best exactly when it is a strict
improvement under `lt`. -/
def selStep {α : Type} (lt : α → α → Bool) (acc : α × Option String)
    (v : String × Option α) : α × Option String :=
  match v.2 with
  | none => acc
  | some x => if lt acc.1 x then (x, some v.1) else acc

/-- The successfully fetched values of a venue list, in iteration
order. -/
def successVals {α : Type} (l : List (String × Option α)) : List (String × α) :=
  l.filterMap (fun v => v.2.map (fun x => (v.1, x)))

/-- Strict improvement order for the bid accumulator of
`get_best_prices`: a larger bid is better. -/
def ltBid (a b : ℚ) : Bool := decide (a < b)

/-- Strict improvement order for the ask accumulator of
`get_best_prices`: a smaller ask is better, where `none` stands for the
infinite initial ask. -/
def ltAsk (a b : Option ℚ) : Bool := askLt b a

/-- The bid data that the bid half of the `get_best_prices` loop reads
from each venue. -/
def bidView (venues : List (String × Option Ticker)) : List (String × Option ℚ) :=
  venues.map (fun v => (v.1, v.2.map Ticker.bid))

/-- The ask data that the ask half of the `get_best_prices` loop reads
from each venue (`none` for a failed fetch, `some none` for a ticker
whose ask is absent). -/
def askView (venues : List (String × Option Ticker)) : List (String × Option (Option ℚ)) :=
  venues.map (fun v => (v.1, v.2.map Ticker.ask))

/-! ## Theorems -/

/-- Helper: dividing by a positive `guard` and scaling by 10000 preserves
strict positivity in both directions. -/
theorem div_guard_pos_iff (guard : ℚ) (hg : 0 < guard) (x : ℚ) :
    0 < x / guard * 10000 ↔ 0 < x := by
  rw [div_mul_eq_mul_div, lt_div_iff hg, zero_mul]
  constructor
  · intro h
    nlinarith
  · intro h
    nlinarith

/-- C5: for a positive guard price and a positive average fill price, the
reported slippage in bps is positive exactly when execution is worse than
the guard on that side, and the two concrete spec examples hold: a buy
with guard 100 and average 100.5 reports +50, a sell with guard 100 and
average 99.5 also reports +50. -/
theorem slippage_sign_convention (side : String) (avg guard : ℚ)
    (ha : 0 < avg) (hg : 0 < guard) :
    (side = "buy" → (0 < slippage_bps side avg guard ↔ guard < avg)) ∧
    (side = "sell" → (0 < slippage_bps side avg guard ↔ avg < guard)) ∧
    slippage_bps "buy" (201 / 2) 100 = 50 ∧
    slippage_bps "sell" (199 / 2) 100 = 50 := by
  refine ⟨?_, ?_,
    by rw [slippage_bps, if_pos ⟨by norm_num, by norm_num, rfl⟩]; norm_num,
    by rw [slippage_bps, if_neg (fun hc => absurd hc.2.2 (by decide)),
           if_pos ⟨by norm_num, by norm_num⟩]; norm_num⟩
  · intro hs
    subst hs
    rw [slippage_bps, if_pos ⟨ha, hg, rfl⟩, div_guard_pos_iff guard hg, sub_pos]
  · intro hs
    subst hs
    rw [slippage_bps, if_neg (fun hc => absurd hc.2.2 (by decide)), if_pos ⟨ha, hg⟩,
      div_guard_pos_iff guard hg, sub_pos]

/-- Witness for C5 at the two concrete spec examples. -/
theorem slippage_sign_convention_witness :
    ((0 : ℚ) < 201 / 2 ∧ (0 : ℚ) < 100) ∧
    (("buy" : String) = "buy" → (0 < slippage_bps "buy" (201 / 2) 100 ↔ (100 : ℚ) < 201 / 2)) ∧
    slippage_bps "buy" (201 / 2) 100 = 50 ∧
    slippage_bps "sell" (199 / 2) 100 = 50 := by
  have h := slippage_sign_convention "buy" (201 / 2) 100 (by norm_num) (by norm_num)
  exact ⟨⟨by norm_num, by norm_num⟩, h.1, h.2.2.1, h.2.2.2⟩

/-- C7: `place_marketable_limit` raises, making no order attempt, exactly
when the guard price is not positive; for a positive guard it builds one
limit order priced at the guard crossed by `cross_bps/10000` (up for a
buy, down otherwise) and rounded to precision, and the default cross
offset `THROUGH_BPS` is 3 bps. -/
theorem marketable_limit_guard_and_price (venue symbol side : String)
    (qty guard cross_bps : ℚ) (fok : Bool) :
    (guard ≤ 0 →
      place_marketable_limit venue symbol side qty guard cross_bps fok =
        Except.error "No guard TOB") ∧
    (0 < guard →
      place_marketable_limit venue symbol side qty guard cross_bps fok =
        Except.ok { symbol := symbol, side := side, order_type := "limit", quantity := qty,
                    price := price_to_precision (guard *
                      (if side = "buy" then 1 + cross_bps / 10000
                       else 1 - cross_bps / 10000)) }) ∧
    THROUGH_BPS = 3 := by
  refine ⟨fun h => ?_, fun h => ?_, rfl⟩
  · rw [place_marketable_limit, if_pos h]
  · rw [place_marketable_limit, if_neg (not_le.mpr h)]

/-- Witness for C7 at guard 100, buy side, default 3 bps cross: the order
is priced at 100.03. -/
theorem marketable_limit_guard_and_price_witness :
    (0 : ℚ) < 100 ∧
    place_marketable_limit "gateio" "BTC/USDT" "buy" 1 100 THROUGH_BPS true =
      Except.ok { symbol := "BTC/USDT", side := "buy", order_type := "limit", quantity := 1,
                  price := 10003 / 100 } := by
  refine ⟨by norm_num, ?_⟩
  have h := (marketable_limit_guard_and_price "gateio" "BTC/USDT" "buy" 1 100 THROUGH_BPS
    true).2.1 (by norm_num)
  rw [h, Except.ok.injEq]
  simp only [OrderRequest.mk.injEq]
  norm_num [price_to_precision, roundHalfEven, THROUGH_BPS]

/-- C6 (evidence of the code bug): the source announces a
`FOK -> IOC -> plain limit` time-in-force fallback chain
(`USE_FOK_FIRST`, `fok_first`), but order placement ignores the flag
entirely and performs exactly one attempt, a plain limit-order request
carrying no time-in-force policy at all: at a concrete intent the result
does not depend on `fok_first`, and the single request built is the plain
limit one. -/
theorem marketable_limit_no_tif_chain :
    USE_FOK_FIRST = true ∧
    (∀ f : Bool,
      place_marketable_limit "mexc" "BTC/USDT" "buy" 1 100 THROUGH_BPS f =
        place_marketable_limit "mexc" "BTC/USDT" "buy" 1 100 THROUGH_BPS true) ∧
    place_marketable_limit "mexc" "BTC/USDT" "buy" 1 100 THROUGH_BPS true =
      Except.ok { symbol := "BTC/USDT", side := "buy", order_type := "limit", quantity := 1,
                  price := 10003 / 100 } := by
  refine ⟨rfl, fun f => rfl, ?_⟩
  rw [place_marketable_limit, if_neg (by norm_num), Except.ok.injEq]
  simp only [OrderRequest.mk.injEq]
  norm_num [price_to_precision, roundHalfEven, THROUGH_BPS]

/-- Helper: the scan loop of the depth computation accumulates exactly
the quantity and notional of the longest not-yet-crossed prefix of the
book side. -/
theorem scanOrders_eq (sb : Bool) (cap : ℚ) :
    ∀ (l : List (ℚ × ℚ)) (tq tv : ℚ),
      scanOrders sb cap l tq tv =
        (tq + levelsQty (includedLevels sb cap l),
         tv + levelsNotional (includedLevels sb cap l)) := by
  intro l
  induction l with
  | nil =>
    intro tq tv
    simp [scanOrders, includedLevels, levelsQty, levelsNotional]
  | cons hd tl ih =>
    intro tq tv
    obtain ⟨p, q⟩ := hd
    by_cases h : (if sb then p ≤ cap else cap ≤ p)
    · have hb : notCrossed sb cap (p, q) = true := by
        cases sb
        · simpa [notCrossed] using h
        · simpa [notCrossed] using h
      rw [scanOrders, if_pos h, ih]
      simp only [includedLevels, List.takeWhile_cons, hb, if_true, levelsQty,
        levelsNotional, List.map_cons, List.sum_cons]
      rw [Prod.mk.injEq]
      exact ⟨by ring, by ring⟩
    · have hb : notCrossed sb cap (p, q) = false := by
        cases sb
        · simpa [notCrossed] using h
        · simpa [notCrossed] using h
      rw [scanOrders, if_neg h]
      simp [includedLevels, List.takeWhile_cons, hb, levelsQty, levelsNotional]

/-- C1: for every order-book side and bps budget, the depth-within-budget
walk accumulates exactly the quantities and notionals of the levels that
have not crossed the cap price (cap = first level price times
`1 + bps/10000` walking asks on the buy side, times `1 - bps/10000`
walking bids on the sell side), a level priced exactly at the cap being
included and the walk stopping at the first crossing level, which is
excluded entirely; the reported vwap is the accumulated notional divided
by the accumulated quantity, which is positive whenever an entry is
reported. -/
theorem depth_within_budget_correct (side_buy : Bool) (bps p0 q0 cap : ℚ)
    (rest : List (ℚ × ℚ))
    (hcap : cap = if side_buy then p0 * (1 + bps / 10000) else p0 * (1 - bps / 10000)) :
    (scanOrders side_buy cap ((p0, q0) :: rest) 0 0).1 =
      levelsQty (includedLevels side_buy cap ((p0, q0) :: rest)) ∧
    (scanOrders side_buy cap ((p0, q0) :: rest) 0 0).2 =
      levelsNotional (includedLevels side_buy cap ((p0, q0) :: rest)) ∧
    (∀ t v m, calc_depth_side side_buy bps ((p0, q0) :: rest) = some (t, v, m) →
      0 < t ∧ t = levelsQty (includedLevels side_buy cap ((p0, q0) :: rest)) ∧
      v = levelsNotional (includedLevels side_buy cap ((p0, q0) :: rest)) / t ∧
      m = cap) := by
  have hmax : (if side_buy then p0 + p0 * (bps / 10000) else p0 - p0 * (bps / 10000)) = cap := by
    rw [hcap]
    cases side_buy <;> simp <;> ring
  refine ⟨by rw [scanOrders_eq]; norm_num, by rw [scanOrders_eq]; norm_num, ?_⟩
  intro t v m hsome
  rw [calc_depth_side] at hsome
  by_cases h0 : p0 = 0
  · rw [if_pos h0] at hsome
    exact absurd hsome (by simp)
  · rw [if_neg h0] at hsome
    simp only [hmax] at hsome
    rw [scanOrders_eq, zero_add, zero_add] at hsome
    by_cases hq : 0 < levelsQty (includedLevels side_buy cap ((p0, q0) :: rest))
    · rw [if_pos hq] at hsome
      obtain ⟨h1, h2, h3⟩ := by simpa using hsome.symm
      subst h1
      subst h2
      subst h3
      exact ⟨hq, rfl, rfl, rfl⟩
    · rw [if_neg hq] at hsome
      exact absurd hsome (by simp)

/-- Witness for C1: asks `[(100,1),(101,1),(105,1)]` with a 500 bps
budget on the buy side give cap 105; all three levels are included (the
105 level equals the cap and is included), so quantity 3 and vwap 102. -/
theorem depth_within_budget_correct_witness :
    ((105 : ℚ) = if true then (100 : ℚ) * (1 + 500 / 10000) else 100 * (1 - 500 / 10000)) ∧
    calc_depth_side true 500 [(100, 1), (101, 1), (105, 1)] = some (3, 102, 105) ∧
    (0 : ℚ) < 3 ∧
    (3 : ℚ) = levelsQty (includedLevels true 105 [(100, 1), (101, 1), (105, 1)]) := by
  have hev : calc_depth_side true 500 [(100, 1), (101, 1), (105, 1)] = some (3, 102, 105) := by
    norm_num [calc_depth_side, scanOrders]
  have h := (depth_within_budget_correct true 500 100 1 105 [(101, 1), (105, 1)]
    (by norm_num)).2.2 3 102 105 hev
  exact ⟨by norm_num, hev, h.1, h.2.1⟩

/-- Helper: when every non-kucoin exchange in the loop list raises, the
per-venue loop of `place_order` falls through to the all-failed
result. -/
theorem placeOrderLoop_failed (ot : OrderType) (q : ℚ) (p : Option ℚ) :
    ∀ l : List (String × Except String OrderResp),
      (∀ e ∈ l, e.1 ≠ "kucoin" → ∃ m, e.2 = Except.error m) →
      (placeOrderLoop ot q p l).2 = allFailedResult := by
  intro l
  induction l with
  | nil => intro _; rfl
  | cons e rest ih =>
    intro h
    obtain ⟨name, outcome⟩ := e
    by_cases hk : name = "kucoin"
    · simp only [placeOrderLoop, if_pos hk]
      exact ih (fun x hx hne => h x (List.mem_cons_of_mem _ hx) hne)
    · obtain ⟨m, hm⟩ := h (name, outcome) (List.mem_cons_self _ _) hk
      simp only at hm
      subst hm
      simp only [placeOrderLoop, if_neg hk]
      exact ih (fun x hx hne => h x (List.mem_cons_of_mem _ hx) hne)

/-- Helper: the per-venue loop of `place_order` returns the success
result of the first non-kucoin venue whose placement returned an order,
when everything before it was skipped or raised. -/
theorem placeOrderLoop_first_success (ot : OrderType) (q : ℚ) (p : Option ℚ) :
    ∀ (pre : List (String × Except String OrderResp)) (name : String) (resp : OrderResp)
      (rest : List (String × Except String OrderResp)),
      (∀ e ∈ pre, e.1 = "kucoin" ∨ ∃ m, e.2 = Except.error m) → name ≠ "kucoin" →
      (placeOrderLoop ot q p (pre ++ (name, Except.ok resp) :: rest)).2 =
        successResult name ot q p resp := by
  intro pre
  induction pre with
  | nil =>
    intro name resp rest _ hname
    simp only [List.nil_append, placeOrderLoop, if_neg hname]
  | cons e pre ih =>
    intro name resp rest hpre hname
    obtain ⟨n0, o0⟩ := e
    have htail : ∀ x ∈ pre, x.1 = "kucoin" ∨ ∃ m, x.2 = Except.error m :=
      fun x hx => hpre x (List.mem_cons_of_mem _ hx)
    rcases hpre (n0, o0) (List.mem_cons_self _ _) with hk | ⟨m, hm⟩
    · simp only at hk
      simp only [List.cons_append, placeOrderLoop, if_pos hk]
      exact ih name resp rest htail hname
    · simp only at hm
      subst hm
      by_cases hk : n0 = "kucoin"
      · simp only [List.cons_append, placeOrderLoop, if_pos hk]
        exact ih name resp rest htail hname
      · simp only [List.cons_append, placeOrderLoop, if_neg hk]
        exact ih name resp rest htail hname

/-- C2: when every attempted venue raises during order placement,
`place_order` returns, without propagating any exception, an
`ExecutionResult` with `success = false`, a human-readable error message,
zero filled quantity, zero cost, no average price and an empty
executions list. -/
theorem place_order_all_venues_failed (ot : OrderType) (q : ℚ) (p : Option ℚ)
    (venue : Option String) (exchanges : List (String × Except String OrderResp))
    (h : ∀ e ∈ exchangesToTry venue exchanges, e.1 ≠ "kucoin" → ∃ m, e.2 = Except.error m) :
    (place_order ot q p venue exchanges).2 = allFailedResult ∧
    allFailedResult.success = false ∧
    allFailedResult.error_message = some "All exchanges failed to place order" ∧
    allFailedResult.total_filled = 0 ∧
    allFailedResult.total_cost = 0 ∧
    allFailedResult.average_price = none ∧
    allFailedResult.executions = [] :=
  ⟨placeOrderLoop_failed ot q p _ h, rfl, rfl, rfl, rfl, rfl, rfl⟩

/-- Witness for C2 on two venues that both raise. -/
theorem place_order_all_venues_failed_witness :
    (∀ e ∈ exchangesToTry none
        [("gateio", (Except.error "down" : Except String OrderResp)),
         ("mexc", Except.error "timeout")],
      e.1 ≠ "kucoin" → ∃ m, e.2 = Except.error m) ∧
    (place_order OrderType.limit 1 (some 100) none
      [("gateio", Except.error "down"), ("mexc", Except.error "timeout")]).2 =
      allFailedResult := by
  have hh : ∀ e ∈ exchangesToTry none
      [("gateio", (Except.error "down" : Except String OrderResp)),
       ("mexc", Except.error "timeout")],
      e.1 ≠ "kucoin" → ∃ m, e.2 = Except.error m := by
    intro e he hne
    simp only [exchangesToTry, List.mem_cons, List.not_mem_nil, or_false] at he
    rcases he with rfl | rfl
    · exact ⟨"down", rfl⟩
    · exact ⟨"timeout", rfl⟩
  exact ⟨hh, (place_order_all_venues_failed OrderType.limit 1 (some 100) none
    [("gateio", Except.error "down"), ("mexc", Except.error "timeout")] hh).1⟩

/-- C8 counterexample: the caller pins the venue "bogus", which the
router does not know; the code then attempts every configured exchange,
so a placement call is made against "mexc", a venue other than the pinned
one — contradicting the claim that only the pinned venue is ever
attempted regardless of whether its name is known. -/
theorem pinned_unknown_venue_attempts_others :
    (place_order OrderType.limit 1 (some 100) (some "bogus")
      [("gateio", Except.error "down"), ("mexc", Except.error "down")]).1 =
      ["gateio", "mexc"] ∧
    "mexc" ∈ (place_order OrderType.limit 1 (some 100) (some "bogus")
      [("gateio", Except.error "down"), ("mexc", Except.error "down")]).1 ∧
    ("mexc" : String) ≠ "bogus" := by
  refine ⟨rfl, ?_, by decide⟩
  rw [show (place_order OrderType.limit 1 (some 100) (some "bogus")
      [("gateio", Except.error "down"), ("mexc", Except.error "down")]).1 =
      ["gateio", "mexc"] from rfl]
  decide

/-- Helper: on a one-entry exchange list, the loop of `place_order`
makes a placement attempt against exactly that entry, unless it is
kucoin. -/
theorem placeOrderLoop_singleton_attempts (ot : OrderType) (q : ℚ) (p : Option ℚ)
    (name : String) (outcome : Except String OrderResp) :
    (placeOrderLoop ot q p [(name, outcome)]).1 =
      if name = "kucoin" then [] else [name] := by
  by_cases hk : name = "kucoin"
  · rw [if_pos hk]
    simp only [placeOrderLoop, if_pos hk]
  · rw [if_neg hk]
    cases outcome with
    | error m => simp [placeOrderLoop, hk]
    | ok resp => simp [placeOrderLoop, hk]

/-- C8 as amended: when the pinned venue's lower-cased name is a key of
the exchange dict, every placement attempt is against that venue only,
whatever the attempt outcomes; when the pinned name is unknown to the
router, it falls back to trying all configured exchanges. -/
theorem pinned_venue_selection (ot : OrderType) (q : ℚ) (p : Option ℚ) (v : String)
    (exchanges : List (String × Except String OrderResp)) :
    (∀ e, exchanges.find? (fun x => x.1 == pyLower v) = some e →
      ∀ n ∈ (place_order ot q p (some v) exchanges).1, n = pyLower v) ∧
    (exchanges.find? (fun x => x.1 == pyLower v) = none →
      place_order ot q p (some v) exchanges = placeOrderLoop ot q p exchanges) := by
  constructor
  · intro e hfind n hn
    have he : e.1 = pyLower v := by
      have h2 := List.find?_some hfind
      simpa using h2
    rw [place_order, exchangesToTry, hfind] at hn
    obtain ⟨name, outcome⟩ := e
    rw [placeOrderLoop_singleton_attempts] at hn
    by_cases hk : name = "kucoin"
    · rw [if_pos hk] at hn
      exact absurd hn (List.not_mem_nil n)
    · rw [if_neg hk] at hn
      rw [List.mem_singleton] at hn
      rw [hn]
      exact he
  · intro hfind
    rw [place_order, exchangesToTry, hfind]

/-- Witness for C8 as amended: pinning "GateIO" with gateio configured
attempts gateio only. -/
theorem pinned_venue_selection_witness :
    ([("gateio", (Except.error "down" : Except String OrderResp)),
      ("mexc", Except.error "down")].find? (fun x => x.1 == pyLower "GateIO") =
        some ("gateio", Except.error "down")) ∧
    (∀ n ∈ (place_order OrderType.limit 1 (some 100) (some "GateIO")
        [("gateio", Except.error "down"), ("mexc", Except.error "down")]).1,
      n = pyLower "GateIO") := by
  refine ⟨rfl, ?_⟩
  exact (pinned_venue_selection OrderType.limit 1 (some 100) "GateIO"
    [("gateio", Except.error "down"), ("mexc", Except.error "down")]).1
    ("gateio", Except.error "down") rfl

/-- C10: when the first successful venue's order response omits the
filled quantity, `place_order` reports `total_filled = 0` for a limit
order; for a market order it reports the full requested quantity exactly
when the lower-cased status is `closed`, `filled` or `done`, and `0` in
any other status. -/
theorem filled_none_reconciliation (ot : OrderType) (q : ℚ) (p : Option ℚ)
    (venue : Option String)
    (exchanges pre rest : List (String × Except String OrderResp))
    (name : String) (resp : OrderResp)
    (hsplit : exchangesToTry venue exchanges = pre ++ (name, Except.ok resp) :: rest)
    (hpre : ∀ e ∈ pre, e.1 = "kucoin" ∨ ∃ m, e.2 = Except.error m)
    (hname : name ≠ "kucoin") (hfill : resp.filled = none) :
    (place_order ot q p venue exchanges).2.total_filled =
      (match ot with
       | OrderType.limit => 0
       | OrderType.market =>
         if pyLower (resp.status.getD "") = "closed" ∨
            pyLower (resp.status.getD "") = "filled" ∨
            pyLower (resp.status.getD "") = "done"
         then q else 0) := by
  have h1 : (place_order ot q p venue exchanges).2 = successResult name ot q p resp := by
    rw [place_order, hsplit]
    exact placeOrderLoop_first_success ot q p pre name resp rest hpre hname
  rw [h1]
  simp only [successResult, hfill]

/-- Witness for C10: a market order on mexc whose response has status
`closed` and no filled quantity is reported fully filled at the
requested quantity 2. -/
theorem filled_none_reconciliation_witness :
    ((⟨some "1", some "closed", none, some 5, none⟩ : OrderResp).filled = none) ∧
    (place_order OrderType.market 2 none none
      [("gateio", Except.error "down"),
       ("mexc", Except.ok ⟨some "1", some "closed", none, some 5, none⟩)]).2.total_filled =
      2 := by
  have h := filled_none_reconciliation OrderType.market 2 none none
    [("gateio", Except.error "down"),
     ("mexc", Except.ok ⟨some "1", some "closed", none, some 5, none⟩)]
    [("gateio", Except.error "down")] [] "mexc"
    ⟨some "1", some "closed", none, some 5, none⟩
    rfl
    (by
      intro e he
      simp only [List.mem_cons, List.not_mem_nil, or_false] at he
      subst he
      exact Or.inr ⟨"down", rfl⟩)
    (by decide) rfl
  refine ⟨rfl, ?_⟩
  rw [h]
  decide

/-- C3: every opportunity emitted by `get_arbitrage_opportunities`, over
any set of per-venue nonnegative bid/ask quotes and any minimum spread,
has `sell_price > buy_price` (sell venue bid strictly above buy venue
ask), carries `spread_bps = (sell_price - buy_price)/buy_price * 10000`
at least `min_spread * 10000`, and pairs two distinct venues — never a
venue with itself. -/
theorem arbitrage_opportunities_sound (prices : List (String × ℚ × ℚ)) (min_spread : ℚ)
    (hnn : ∀ e ∈ prices, 0 ≤ e.2.1 ∧ 0 ≤ e.2.2) :
    ∀ op ∈ get_arbitrage_opportunities prices min_spread,
      op.buy_price < op.sell_price ∧
      op.spread_bps = (op.sell_price - op.buy_price) / op.buy_price * 10000 ∧
      min_spread * 10000 ≤ op.spread_bps ∧
      op.buy_venue ≠ op.sell_venue := by
  intro op hop
  simp only [get_arbitrage_opportunities, List.mem_flatMap, List.mem_filterMap] at hop
  obtain ⟨buy, hbuy, sell, hsell, hemit⟩ := hop
  by_cases hne : buy.1 = sell.1
  · rw [if_pos hne] at hemit
    exact absurd hemit (by simp)
  · rw [if_neg hne] at hemit
    by_cases hgt : sell.2.1 > buy.2.2
    · rw [if_pos hgt] at hemit
      by_cases hsp : min_spread * 10000 ≤
          (if 0 < buy.2.2 then (sell.2.1 - buy.2.2) / buy.2.2 * 10000 else 0)
      · rw [if_pos hsp] at hemit
        obtain rfl := Option.some_injective _ hemit
        refine ⟨hgt, ?_, hsp, hne⟩
        by_cases hpos : 0 < buy.2.2
        · rw [if_pos hpos]
        · rw [if_neg hpos]
          have hz : buy.2.2 = 0 := le_antisymm (not_lt.mp hpos) (hnn buy hbuy).2
          rw [hz, div_zero, zero_mul]
      · rw [if_neg hsp] at hemit
        exact absurd hemit (by simp)
    · rw [if_neg hgt] at hemit
      exact absurd hemit (by simp)

/-- Witness for C3 at the spec example: venue a quotes bid 100 ask 101,
venue b quotes bid 103 ask 104; with minimum spread 0.001 the
opportunity buy on a at 101, sell on b at 103 is emitted with spread_bps
20000/101 (about 198). -/
theorem arbitrage_opportunities_sound_witness :
    (∀ e ∈ [("a", ((100 : ℚ), (101 : ℚ))), ("b", (103, 104))], 0 ≤ e.2.1 ∧ 0 ≤ e.2.2) ∧
    ({ buy_venue := "a", sell_venue := "b", buy_price := 101, sell_price := 103,
       spread := 2, spread_bps := 20000 / 101, potential_profit := 2 } : ArbOpportunity) ∈
      get_arbitrage_opportunities [("a", (100, 101)), ("b", (103, 104))] (1 / 1000) ∧
    ((101 : ℚ) < 103 ∧
      (20000 / 101 : ℚ) = (103 - 101) / 101 * 10000 ∧
      (1 / 1000 : ℚ) * 10000 ≤ 20000 / 101 ∧
      ("a" : String) ≠ "b") := by
  have hmem : (⟨"a", "b", 101, 103, 2, 20000 / 101, 2⟩ : ArbOpportunity) ∈
      get_arbitrage_opportunities [("a", (100, 101)), ("b", (103, 104))] (1 / 1000) := by
    have hab : ¬ ("a" : String) = "b" := by decide
    have hba : ¬ ("b" : String) = "a" := by decide
    norm_num [get_arbitrage_opportunities, hab, hba]
  have h := arbitrage_opportunities_sound [("a", (100, 101)), ("b", (103, 104))] (1 / 1000)
    (by
      intro e he
      simp only [List.mem_cons, List.not_mem_nil, or_false] at he
      rcases he with rfl | rfl
      · exact ⟨by norm_num, by norm_num⟩
      · exact ⟨by norm_num, by norm_num⟩)
    _ hmem
  exact ⟨by
      intro e he
      simp only [List.mem_cons, List.not_mem_nil, or_false] at he
      rcases he with rfl | rfl
      · exact ⟨by norm_num, by norm_num⟩
      · exact ⟨by norm_num, by norm_num⟩,
    hmem, h⟩

/-- Helper: a venue whose fetch failed contributes nothing to the
successfully fetched values. -/
theorem successVals_cons_none {α : Type} (n : String) (rest : List (String × Option α)) :
    successVals ((n, none) :: rest) = successVals rest := rfl

/-- Helper: a venue whose fetch succeeded contributes its value to the
successfully fetched values. -/
theorem successVals_cons_some {α : Type} (n : String) (a : α)
    (rest : List (String × Option α)) :
    successVals ((n, some a) :: rest) = (n, a) :: successVals rest := rfl

/-- Helper: when no successfully fetched value strictly improves on the
running best, the selection fold leaves the accumulator unchanged. -/
theorem selFold_no_improve {α : Type} (lt : α → α → Bool) :
    ∀ (l : List (String × Option α)) (b : α) (v0 : Option String),
      (∀ x ∈ successVals l, lt b x.2 = false) →
      List.foldl (selStep lt) (b, v0) l = (b, v0) := by
  intro l
  induction l with
  | nil => intro b v0 _; rfl
  | cons e rest ih =>
    intro b v0 h
    obtain ⟨n, o⟩ := e
    cases o with
    | none =>
      rw [List.foldl_cons, show selStep lt (b, v0) (n, none) = (b, v0) from rfl]
      exact ih b v0 (fun x hx => h x (by rw [successVals_cons_none]; exact hx))
    | some a =>
      have hhead : lt b a = false :=
        h (n, a) (by rw [successVals_cons_some]; exact List.mem_cons_self _ _)
      rw [List.foldl_cons,
        show selStep lt (b, v0) (n, some a) = if lt b a then (a, some n) else (b, v0) from rfl,
        hhead]
      simp only [Bool.false_eq_true, if_false]
      exact ih b v0 (fun x hx =>
        h x (by rw [successVals_cons_some]; exact List.mem_cons_of_mem _ hx))

/-- Helper: when some successfully fetched value strictly improves on the
starting best, the selection fold ends at the best fetched value, no
fetched value strictly improves on the result, and the recorded venue is
the first venue achieving the result. -/
theorem selFold_improve {α : Type} [BEq α] [LawfulBEq α] (lt : α → α → Bool)
    (htrans : ∀ a b c, lt a b = true → lt b c = true → lt a c = true)
    (hirr : ∀ a, lt a a = false) :
    ∀ (l : List (String × Option α)) (b : α) (v0 : Option String),
      (∃ x ∈ successVals l, lt b x.2 = true) →
      lt b (List.foldl (selStep lt) (b, v0) l).1 = true ∧
      (∃ x ∈ successVals l, x.2 = (List.foldl (selStep lt) (b, v0) l).1) ∧
      (∀ x ∈ successVals l, lt (List.foldl (selStep lt) (b, v0) l).1 x.2 = false) ∧
      (List.foldl (selStep lt) (b, v0) l).2 =
        ((successVals l).find?
          (fun x => x.2 == (List.foldl (selStep lt) (b, v0) l).1)).map Prod.fst := by
  intro l
  induction l with
  | nil =>
    intro b v0 hex
    simp [successVals] at hex
  | cons e rest ih =>
    intro b v0 hex
    obtain ⟨n, o⟩ := e
    cases o with
    | none =>
      rw [successVals_cons_none] at hex
      rw [List.foldl_cons, show selStep lt (b, v0) (n, none) = (b, v0) from rfl,
        successVals_cons_none]
      exact ih b v0 hex
    | some a =>
      rw [List.foldl_cons,
        show selStep lt (b, v0) (n, some a) = if lt b a then (a, some n) else (b, v0) from rfl]
      by_cases hba : lt b a = true
      · rw [if_pos hba, successVals_cons_some]
        by_cases hex2 : ∃ x ∈ successVals rest, lt a x.2 = true
        · obtain ⟨h1, h2, h3, h4⟩ := ih a (some n) hex2
          refine ⟨htrans _ _ _ hba h1, ?_, ?_, ?_⟩
          · obtain ⟨x, hx, hx2⟩ := h2
            exact ⟨x, List.mem_cons_of_mem _ hx, hx2⟩
          · intro x hx
            rcases List.mem_cons.mp hx with hx0 | hx'
            · rw [hx0]
              cases hcase : lt (List.foldl (selStep lt) (a, some n) rest).1 a with
              | false => rfl
              | true =>
                have habs := htrans _ _ _ h1 hcase
                rw [hirr] at habs
                exact absurd habs Bool.false_ne_true
            · exact h3 x hx'
          · rw [List.find?_cons_of_neg, h4]
            intro heq
            have heq2 : a = (List.foldl (selStep lt) (a, some n) rest).1 := by
              simpa using heq
            rw [← heq2, hirr] at h1
            exact Bool.false_ne_true h1
        · push_neg at hex2
          have hall : ∀ x ∈ successVals rest, lt a x.2 = false := fun x hx =>
            Bool.eq_false_iff.mpr (hex2 x hx)
          rw [selFold_no_improve lt rest a (some n) hall]
          refine ⟨hba, ⟨(n, a), List.mem_cons_self _ _, rfl⟩, ?_, ?_⟩
          · intro x hx
            rcases List.mem_cons.mp hx with hx0 | hx'
            · rw [hx0]
              exact hirr a
            · exact hall x hx'
          · rw [List.find?_cons_of_pos]
            · rfl
            · show (a == a) = true
              exact beq_self_eq_true a
      · rw [if_neg hba, successVals_cons_some]
        have hex' : ∃ x ∈ successVals rest, lt b x.2 = true := by
          rw [successVals_cons_some] at hex
          obtain ⟨x, hx, hxlt⟩ := hex
          rcases List.mem_cons.mp hx with hx0 | hx'
          · rw [hx0] at hxlt
            exact absurd hxlt hba
          · exact ⟨x, hx', hxlt⟩
        obtain ⟨h1, h2, h3, h4⟩ := ih b v0 hex'
        refine ⟨h1, ?_, ?_, ?_⟩
        · obtain ⟨x, hx, hx2⟩ := h2
          exact ⟨x, List.mem_cons_of_mem _ hx, hx2⟩
        · intro x hx
          rcases List.mem_cons.mp hx with hx0 | hx'
          · rw [hx0]
            cases hcase : lt (List.foldl (selStep lt) (b, v0) rest).1 a with
            | false => rfl
            | true => exact absurd (htrans _ _ _ h1 hcase) hba
          · exact h3 x hx'
        · rw [List.find?_cons_of_neg, h4]
          intro heq
          have heq2 : a = (List.foldl (selStep lt) (b, v0) rest).1 := by
            simpa using heq
          rw [heq2] at hba
          exact hba h1

/-- Helper: the bid half of one `get_best_prices` loop iteration is the
generic strict-improvement step under `ltBid` on the bid view. -/
theorem bestStep_bid (acc : BestAcc) (v : String × Option Ticker) :
    ((bestStep acc v).best_bid, (bestStep acc v).best_bid_venue) =
      selStep ltBid (acc.best_bid, acc.best_bid_venue) (v.1, v.2.map Ticker.bid) := by
  obtain ⟨n, o⟩ := v
  cases o with
  | none => rfl
  | some t =>
    simp only [bestStep, selStep, Option.map_some', ltBid, decide_eq_true_eq]
    split_ifs <;> rfl

/-- Helper: the ask half of one `get_best_prices` loop iteration is the
generic strict-improvement step under `ltAsk` on the ask view. -/
theorem bestStep_ask (acc : BestAcc) (v : String × Option Ticker) :
    ((bestStep acc v).best_ask, (bestStep acc v).best_ask_venue) =
      selStep ltAsk (acc.best_ask, acc.best_ask_venue) (v.1, v.2.map Ticker.ask) := by
  obtain ⟨n, o⟩ := v
  cases o with
  | none => rfl
  | some t =>
    simp only [bestStep, selStep, Option.map_some', ltAsk]
    split_ifs <;> rfl

/-- Helper: the bid component of the `get_best_prices` loop is the
generic selection fold under `ltBid` over the bid view. -/
theorem bestFold_bid :
    ∀ (l : List (String × Option Ticker)) (acc : BestAcc),
      ((l.foldl bestStep acc).best_bid, (l.foldl bestStep acc).best_bid_venue) =
        List.foldl (selStep ltBid) (acc.best_bid, acc.best_bid_venue) (bidView l) := by
  intro l
  induction l with
  | nil => intro acc; rfl
  | cons e rest ih =>
    intro acc
    have hview : bidView (e :: rest) = (e.1, e.2.map Ticker.bid) :: bidView rest := rfl
    rw [List.foldl_cons, ih (bestStep acc e), hview, List.foldl_cons, bestStep_bid]

/-- Helper: the ask component of the `get_best_prices` loop is the
generic selection fold under `ltAsk` over the ask view. -/
theorem bestFold_ask :
    ∀ (l : List (String × Option Ticker)) (acc : BestAcc),
      ((l.foldl bestStep acc).best_ask, (l.foldl bestStep acc).best_ask_venue) =
        List.foldl (selStep ltAsk) (acc.best_ask, acc.best_ask_venue) (askView l) := by
  intro l
  induction l with
  | nil => intro acc; rfl
  | cons e rest ih =>
    intro acc
    have hview : askView (e :: rest) = (e.1, e.2.map Ticker.ask) :: askView rest := rfl
    rw [List.foldl_cons, ih (bestStep acc e), hview, List.foldl_cons, bestStep_ask]

/-- Helper: the successes of the bid view are the successful tickers with
their bids. -/
theorem successVals_bidView :
    ∀ l : List (String × Option Ticker),
      successVals (bidView l) = (successTickers l).map (fun x => (x.1, x.2.bid)) := by
  intro l
  induction l with
  | nil => rfl
  | cons e rest ih =>
    obtain ⟨n, o⟩ := e
    cases o with
    | none =>
      show successVals (bidView ((n, none) :: rest)) = _
      rw [show bidView ((n, none) :: rest) = (n, none) :: bidView rest from rfl,
        successVals_cons_none, ih]
      rfl
    | some t =>
      show successVals (bidView ((n, some t) :: rest)) = _
      rw [show bidView ((n, some t) :: rest) = (n, some t.bid) :: bidView rest from rfl,
        successVals_cons_some, ih]
      rfl

/-- Helper: the successes of the ask view are the successful tickers with
their asks. -/
theorem successVals_askView :
    ∀ l : List (String × Option Ticker),
      successVals (askView l) = (successTickers l).map (fun x => (x.1, x.2.ask)) := by
  intro l
  induction l with
  | nil => rfl
  | cons e rest ih =>
    obtain ⟨n, o⟩ := e
    cases o with
    | none =>
      show successVals (askView ((n, none) :: rest)) = _
      rw [show askView ((n, none) :: rest) = (n, none) :: askView rest from rfl,
        successVals_cons_none, ih]
      rfl
    | some t =>
      show successVals (askView ((n, some t) :: rest)) = _
      rw [show askView ((n, some t) :: rest) = (n, some t.ask) :: askView rest from rfl,
        successVals_cons_some, ih]
      rfl

/-- Helper: venues whose ticker fetch raised do not affect the
`get_best_prices` loop at all. -/
theorem bestFold_filter :
    ∀ (l : List (String × Option Ticker)) (acc : BestAcc),
      List.foldl bestStep acc (l.filter (fun v => v.2.isSome)) = List.foldl bestStep acc l := by
  intro l
  induction l with
  | nil => intro acc; rfl
  | cons e rest ih =>
    intro acc
    obtain ⟨n, o⟩ := e
    cases o with
    | none =>
      rw [show ((n, (none : Option Ticker)) :: rest).filter (fun v => v.2.isSome) =
        rest.filter (fun v => v.2.isSome) from rfl]
      rw [List.foldl_cons, show bestStep acc (n, none) = acc from rfl]
      exact ih acc
    | some t =>
      rw [show ((n, some t) :: rest).filter (fun v => v.2.isSome) =
        (n, some t) :: rest.filter (fun v => v.2.isSome) from rfl]
      rw [List.foldl_cons, List.foldl_cons]
      exact ih (bestStep acc (n, some t))

/-- Helper: a larger bid is a transitive strict improvement. -/
theorem ltBid_trans : ∀ a b c : ℚ, ltBid a b = true → ltBid b c = true → ltBid a c = true := by
  intro a b c
  simp only [ltBid, decide_eq_true_eq]
  exact lt_trans

/-- Helper: a bid never strictly improves on itself. -/
theorem ltBid_irrefl : ∀ a : ℚ, ltBid a a = false := by
  intro a
  simp [ltBid]

/-- Helper: a smaller ask (with `none` as infinity) is a transitive
strict improvement. -/
theorem ltAsk_trans :
    ∀ a b c : Option ℚ, ltAsk a b = true → ltAsk b c = true → ltAsk a c = true := by
  intro a b c
  cases a <;> cases b <;> cases c <;> simp [ltAsk, askLt]
  intro h1 h2
  linarith

/-- Helper: an ask never strictly improves on itself. -/
theorem ltAsk_irrefl : ∀ a : Option ℚ, ltAsk a a = false := by
  intro a
  cases a <;> simp [ltAsk, askLt]

/-- Helper: `get_best_prices` returns the empty result exactly when the
loop left `best_bid` at `0` or `best_ask` at infinity. -/
theorem get_best_prices_none_iff (venues : List (String × Option Ticker)) :
    get_best_prices venues = none ↔
      (venues.foldl bestStep ⟨0, none, none, none⟩).best_bid = 0 ∨
      (venues.foldl bestStep ⟨0, none, none, none⟩).best_ask = none := by
  simp only [get_best_prices]
  by_cases hb : (venues.foldl bestStep ⟨0, none, none, none⟩).best_bid = 0
  · simp [hb]
  · cases hask : (venues.foldl bestStep ⟨0, none, none, none⟩).best_ask <;> simp [hb, hask]

/-- Helper: searching a mapped venue list for the first entry whose
mapped value satisfies a predicate finds the same venue as searching the
original list. -/
theorem find?_map_fst {α β : Type} (f : α → β) (p : β → Bool) :
    ∀ l : List (String × α),
      ((l.map (fun x => (x.1, f x.2))).find? (fun x => p x.2)).map Prod.fst =
        (l.find? (fun x => p (f x.2))).map Prod.fst := by
  intro l
  rw [List.find?_map, Option.map_map]
  rfl

/-- C4: whenever at least one venue returns a ticker with a positive bid
and at least one venue returns a ticker carrying an ask, `get_best_prices`
returns a result computed from the successfully fetched tickers only:
venues whose fetch raised are excluded without propagating their error
(filtering them away changes nothing), `best_bid` is the maximum bid over
the successful tickers with `best_bid_venue` the first venue achieving
it, and `best_ask` is the minimum ask over the successful tickers with
`best_ask_venue` the first venue achieving it. -/
theorem best_prices_partial_failure (venues : List (String × Option Ticker))
    (hbid : ∃ x ∈ successTickers venues, 0 < x.2.bid)
    (hask : ∃ x ∈ successTickers venues, x.2.ask ≠ none) :
    ∃ r, get_best_prices venues = some r ∧
      get_best_prices (venues.filter (fun v => v.2.isSome)) = some r ∧
      (∃ x ∈ successTickers venues, x.2.bid = r.best_bid) ∧
      (∀ x ∈ successTickers venues, x.2.bid ≤ r.best_bid) ∧
      r.best_bid_venue =
        ((successTickers venues).find? (fun x => x.2.bid == r.best_bid)).map Prod.fst ∧
      (∃ x ∈ successTickers venues, x.2.ask = some r.best_ask) ∧
      (∀ x ∈ successTickers venues, ∀ a, x.2.ask = some a → r.best_ask ≤ a) ∧
      r.best_ask_venue =
        ((successTickers venues).find? (fun x => x.2.ask == some r.best_ask)).map
          Prod.fst := by
  have hbx : ∃ x ∈ successVals (bidView venues), ltBid 0 x.2 = true := by
    obtain ⟨x, hx, hxpos⟩ := hbid
    refine ⟨(x.1, x.2.bid), ?_, by simp [ltBid, hxpos]⟩
    rw [successVals_bidView]
    exact List.mem_map_of_mem _ hx
  have hax : ∃ x ∈ successVals (askView venues), ltAsk none x.2 = true := by
    obtain ⟨x, hx, hxne⟩ := hask
    obtain ⟨a, ha⟩ := Option.ne_none_iff_exists'.mp hxne
    refine ⟨(x.1, x.2.ask), ?_, by rw [ha]; rfl⟩
    rw [successVals_askView]
    exact List.mem_map_of_mem _ hx
  obtain ⟨hb1, hb2, hb3, hb4⟩ := selFold_improve ltBid ltBid_trans ltBid_irrefl
    (bidView venues) 0 none hbx
  obtain ⟨ha1, ha2, ha3, ha4⟩ := selFold_improve ltAsk ltAsk_trans ltAsk_irrefl
    (askView venues) none none hax
  have hfoldb : ((venues.foldl bestStep ⟨0, none, none, none⟩).best_bid,
      (venues.foldl bestStep ⟨0, none, none, none⟩).best_bid_venue) =
      List.foldl (selStep ltBid) (0, none) (bidView venues) :=
    bestFold_bid venues ⟨0, none, none, none⟩
  have hfolda : ((venues.foldl bestStep ⟨0, none, none, none⟩).best_ask,
      (venues.foldl bestStep ⟨0, none, none, none⟩).best_ask_venue) =
      List.foldl (selStep ltAsk) (none, none) (askView venues) :=
    bestFold_ask venues ⟨0, none, none, none⟩
  rw [← hfoldb] at hb1 hb2 hb3 hb4
  rw [← hfolda] at ha1 ha2 ha3 ha4
  dsimp only at hb1 hb2 hb3 hb4 ha1 ha2 ha3 ha4
  have hbpos : 0 < (venues.foldl bestStep ⟨0, none, none, none⟩).best_bid := by
    simpa [ltBid] using hb1
  have hbne : ¬ (venues.foldl bestStep ⟨0, none, none, none⟩).best_bid = 0 :=
    fun h => absurd (h ▸ hbpos) (lt_irrefl 0)
  have hm : ∃ m, (venues.foldl bestStep ⟨0, none, none, none⟩).best_ask = some m := by
    cases h : (venues.foldl bestStep ⟨0, none, none, none⟩).best_ask with
    | none =>
      rw [h] at ha1
      exact absurd ha1 (by simp [ltAsk, askLt])
    | some m => exact ⟨m, rfl⟩
  obtain ⟨m, hm⟩ := hm
  refine ⟨⟨(venues.foldl bestStep ⟨0, none, none, none⟩).best_bid, m,
      m - (venues.foldl bestStep ⟨0, none, none, none⟩).best_bid,
      (if 0 < (venues.foldl bestStep ⟨0, none, none, none⟩).best_bid then
        (m - (venues.foldl bestStep ⟨0, none, none, none⟩).best_bid) /
          (venues.foldl bestStep ⟨0, none, none, none⟩).best_bid * 10000 else 0),
      (venues.foldl bestStep ⟨0, none, none, none⟩).best_bid_venue,
      (venues.foldl bestStep ⟨0, none, none, none⟩).best_ask_venue⟩,
    ?_, ?_, ?_, ?_, ?_, ?_, ?_, ?_⟩
  · simp only [get_best_prices]
    rw [if_neg hbne, hm]
  · simp only [get_best_prices, bestFold_filter]
    rw [if_neg hbne, hm]
  · rw [successVals_bidView] at hb2
    obtain ⟨x, hx, hx2⟩ := hb2
    obtain ⟨y, hy, rfl⟩ := List.mem_map.mp hx
    exact ⟨y, hy, hx2⟩
  · intro x hx
    have h := hb3 (x.1, x.2.bid)
      (by rw [successVals_bidView]; exact List.mem_map_of_mem _ hx)
    simp only [ltBid] at h
    have h2 : ¬ (venues.foldl bestStep ⟨0, none, none, none⟩).best_bid < x.2.bid := by
      intro hc
      rw [decide_eq_true hc] at h
      exact Bool.noConfusion h
    exact not_lt.mp h2
  · rw [hb4, successVals_bidView]
    exact find?_map_fst Ticker.bid (fun b => b == (venues.foldl bestStep ⟨0, none, none, none⟩).best_bid) (successTickers venues)
  · rw [successVals_askView] at ha2
    obtain ⟨x, hx, hx2⟩ := ha2
    obtain ⟨y, hy, rfl⟩ := List.mem_map.mp hx
    refine ⟨y, hy, ?_⟩
    have hx2a : y.2.ask = (venues.foldl bestStep ⟨0, none, none, none⟩).best_ask := hx2
    rw [hx2a]
    exact hm
  · intro x hx a ha
    have h := ha3 (x.1, x.2.ask)
      (by rw [successVals_askView]; exact List.mem_map_of_mem _ hx)
    rw [hm] at h
    show m ≤ a
    rw [ha] at h
    have h2 : ¬ a < m := by
      intro hc
      rw [show ltAsk (some m) (some a) = decide (a < m) from rfl, decide_eq_true hc] at h
      exact Bool.noConfusion h
    exact not_lt.mp h2
  · show (venues.foldl bestStep ⟨0, none, none, none⟩).best_ask_venue =
      ((successTickers venues).find? (fun x => x.2.ask == some m)).map Prod.fst
    rw [ha4, hm, successVals_askView]
    exact find?_map_fst Ticker.ask (fun b => b == some m) (successTickers venues)

/-- Witness for C4: gateio quotes 100/101, kucoin raises, bitget quotes
102/103. -/
theorem best_prices_partial_failure_witness :
    (∃ x ∈ successTickers [("gateio", some ⟨100, some 101⟩), ("kucoin", none),
        ("bitget", some ⟨102, some 103⟩)], 0 < x.2.bid) ∧
    (∃ x ∈ successTickers [("gateio", some ⟨100, some 101⟩), ("kucoin", none),
        ("bitget", some ⟨102, some 103⟩)], x.2.ask ≠ none) ∧
    (∃ r, get_best_prices [("gateio", some ⟨100, some 101⟩), ("kucoin", none),
        ("bitget", some ⟨102, some 103⟩)] = some r ∧
      get_best_prices ([("gateio", some ⟨100, some 101⟩), ("kucoin", none),
        ("bitget", some ⟨102, some 103⟩)].filter (fun v => v.2.isSome)) = some r ∧
      (∃ x ∈ successTickers [("gateio", some ⟨100, some 101⟩), ("kucoin", none),
        ("bitget", some ⟨102, some 103⟩)], x.2.bid = r.best_bid) ∧
      (∀ x ∈ successTickers [("gateio", some ⟨100, some 101⟩), ("kucoin", none),
        ("bitget", some ⟨102, some 103⟩)], x.2.bid ≤ r.best_bid) ∧
      r.best_bid_venue =
        ((successTickers [("gateio", some ⟨100, some 101⟩), ("kucoin", none),
          ("bitget", some ⟨102, some 103⟩)]).find?
            (fun x => x.2.bid == r.best_bid)).map Prod.fst ∧
      (∃ x ∈ successTickers [("gateio", some ⟨100, some 101⟩), ("kucoin", none),
        ("bitget", some ⟨102, some 103⟩)], x.2.ask = some r.best_ask) ∧
      (∀ x ∈ successTickers [("gateio", some ⟨100, some 101⟩), ("kucoin", none),
        ("bitget", some ⟨102, some 103⟩)], ∀ a, x.2.ask = some a → r.best_ask ≤ a) ∧
      r.best_ask_venue =
        ((successTickers [("gateio", some ⟨100, some 101⟩), ("kucoin", none),
          ("bitget", some ⟨102, some 103⟩)]).find?
            (fun x => x.2.ask == some r.best_ask)).map Prod.fst) :=
  ⟨by decide, by decide,
    best_prices_partial_failure
      [("gateio", some ⟨100, some 101⟩), ("kucoin", none), ("bitget", some ⟨102, some 103⟩)]
      (by decide) (by decide)⟩

/-- C9 counterexample: one venue quotes bid 100 with ask 0.  No venue
produced a usable two-sided quote (a positive bid and a positive ask),
yet `get_best_prices` returns a non-empty result — so the result is not
empty exactly when no venue produced a usable two-sided quote. -/
theorem best_prices_one_sided_counterexample :
    get_best_prices [("mexc", some ⟨100, some 0⟩)] ≠ none ∧
    ¬ ∃ x ∈ successTickers [("mexc", some ⟨100, some 0⟩)],
        0 < x.2.bid ∧ 0 < x.2.ask.getD 0 := by
  constructor
  · decide
  · decide

/-- C9 as amended: `get_best_prices` returns the empty result exactly
when no venue reported a positive bid or no venue reported any ask at
all — the surviving bid and ask need not come from the same venue; in
particular, whenever at least one venue produced a usable two-sided
quote, the result is non-empty. -/
theorem best_prices_empty_iff (venues : List (String × Option Ticker)) :
    (get_best_prices venues = none ↔
      (∀ x ∈ successTickers venues, x.2.bid ≤ 0) ∨
      (∀ x ∈ successTickers venues, x.2.ask = none)) ∧
    ((∃ x ∈ successTickers venues, 0 < x.2.bid ∧ 0 < x.2.ask.getD 0) →
      get_best_prices venues ≠ none) := by
  have hfoldb : ((venues.foldl bestStep ⟨0, none, none, none⟩).best_bid,
      (venues.foldl bestStep ⟨0, none, none, none⟩).best_bid_venue) =
      List.foldl (selStep ltBid) (0, none) (bidView venues) :=
    bestFold_bid venues ⟨0, none, none, none⟩
  have hfolda : ((venues.foldl bestStep ⟨0, none, none, none⟩).best_ask,
      (venues.foldl bestStep ⟨0, none, none, none⟩).best_ask_venue) =
      List.foldl (selStep ltAsk) (none, none) (askView venues) :=
    bestFold_ask venues ⟨0, none, none, none⟩
  have hmain : get_best_prices venues = none ↔
      (∀ x ∈ successTickers venues, x.2.bid ≤ 0) ∨
      (∀ x ∈ successTickers venues, x.2.ask = none) := by
    rw [get_best_prices_none_iff]
    constructor
    · rintro (hb | ha)
      · left
        intro x hx
        by_contra hlt
        push_neg at hlt
        have hbx : ∃ y ∈ successVals (bidView venues), ltBid 0 y.2 = true :=
          ⟨(x.1, x.2.bid),
            by rw [successVals_bidView]; exact List.mem_map_of_mem _ hx,
            by simp [ltBid, hlt]⟩
        obtain ⟨h1, -, -, -⟩ := selFold_improve ltBid ltBid_trans ltBid_irrefl
          (bidView venues) 0 none hbx
        rw [← hfoldb] at h1
        dsimp only at h1
        rw [hb] at h1
        simp [ltBid] at h1
      · right
        intro x hx
        by_contra hne
        obtain ⟨a, haa⟩ := Option.ne_none_iff_exists'.mp hne
        have hax : ∃ y ∈ successVals (askView venues), ltAsk none y.2 = true :=
          ⟨(x.1, x.2.ask),
            by rw [successVals_askView]; exact List.mem_map_of_mem _ hx,
            by rw [show ((x.1, x.2.ask) : String × Option ℚ).2 = x.2.ask from rfl, haa]; rfl⟩
        obtain ⟨h1, -, -, -⟩ := selFold_improve ltAsk ltAsk_trans ltAsk_irrefl
          (askView venues) none none hax
        rw [← hfolda] at h1
        dsimp only at h1
        rw [ha] at h1
        exact Bool.noConfusion h1
    · rintro (hb | ha)
      · left
        have hstay : List.foldl (selStep ltBid) (0, none) (bidView venues) = (0, none) := by
          apply selFold_no_improve
          intro y hy
          rw [successVals_bidView] at hy
          obtain ⟨x, hx, rfl⟩ := List.mem_map.mp hy
          simp only [ltBid, decide_eq_false_iff_not, not_lt]
          exact hb x hx
        rw [hstay] at hfoldb
        exact congrArg Prod.fst hfoldb
      · right
        have hstay : List.foldl (selStep ltAsk) (none, none) (askView venues) = (none, none) := by
          apply selFold_no_improve
          intro y hy
          rw [successVals_askView] at hy
          obtain ⟨x, hx, rfl⟩ := List.mem_map.mp hy
          rw [show ((x.1, x.2.ask) : String × Option ℚ).2 = x.2.ask from rfl, ha x hx]
          rfl
        rw [hstay] at hfolda
        exact congrArg Prod.fst hfolda
  refine ⟨hmain, ?_⟩
  rintro ⟨x, hx, hxb, hxa⟩ hnone
  rcases hmain.mp hnone with hb | ha
  · exact absurd hxb (not_lt.mpr (hb x hx))
  · rw [ha x hx] at hxa
    exact absurd hxa (by norm_num)

/-- Witness for C9 as amended: a venue with a usable two-sided quote
yields a non-empty result. -/
theorem best_prices_empty_iff_witness :
    (∃ x ∈ successTickers [("gateio", some ⟨100, some 101⟩)],
      0 < x.2.bid ∧ 0 < x.2.ask.getD 0) ∧
    get_best_prices [("gateio", some ⟨100, some 101⟩)] ≠ none :=
  ⟨by decide, (best_prices_empty_iff [("gateio", some ⟨100, some 101⟩)]).2 (by decide)⟩
